import Mathlib

/-!
Verification of the burr-solver core (`src/burr`), via a shallow embedding of
the Python modules `position.py`, `voxel.py`, `shape.py`, `puzzle.py` and
`solver.py` into Lean.

Modelling conventions:
* Every float held by a `Voxel` in this program is an integer multiple of
  `1/2` (shape parsing produces half-integers, all later arithmetic negates
  coordinates, swaps them, adds integers to them, or floors them, and Python
  float arithmetic is exact on such values).  The embedding therefore stores
  each voxel coordinate DOUBLED, as an `Int`: a stored value `d` represents
  the source coordinate `d / 2`.  Every numeric constant of the source
  appears doubled here, e.g. the parse offset `-0.5` becomes `-1`, the frame
  bound `x < -2` becomes `d < -4`, and a translation by a position adds twice
  the position coordinate.
* Python strings are embedded as `List Char`; Python tuples and lists as
  `List`; Python `dict`s as association lists looked up by key; Python `set`s
  of voxels as `List Voxel` used only through membership and disjointness
  tests, which are insensitive to duplication and order.
* `while` loops are embedded as fuel-bounded recursion; every concrete
  execution proved below finishes strictly before its fuel runs out.
* The source accesses the shape index of a `Piece` as `piece.id` inside
  `puzzle.py` although the named-tuple field is declared `shape` (the renderer
  `burr_solver.py` reads `piece.shape`); the embedding uses the `shape` field,
  the only integer field identifying a shape, for both spellings.
-/

namespace Burr

/-- `Direction` from `position.py`: the six axis-aligned unit translations. -/
inductive Direction
  | FORWARD
  | BACKWARD
  | UP
  | DOWN
  | LEFT
  | RIGHT
deriving DecidableEq

/-- The six directions in the order `for d in Direction` iterates them. -/
def directionList : List Direction :=
  [.FORWARD, .BACKWARD, .UP, .DOWN, .LEFT, .RIGHT]

/-- `Axis` from `position.py`. -/
inductive Axis
  | X
  | Y
  | Z
deriving DecidableEq

/-- `Position` from `position.py`: integer coordinates plus an axis tag
(positions are NOT doubled; only voxel coordinates are). -/
structure Position where
  x : Int
  y : Int
  z : Int
  axis : Axis
deriving DecidableEq

/-- `Position.move` from `position.py`: translate along the given direction
(the six helpers `up`, `down`, `left`, `right`, `forward`, `back` inlined). -/
def Position.move (p : Position) (d : Direction) (steps : Int) : Position :=
  match d with
  | .UP => ⟨p.x, p.y + steps, p.z, p.axis⟩
  | .DOWN => ⟨p.x, p.y - steps, p.z, p.axis⟩
  | .LEFT => ⟨p.x - steps, p.y, p.z, p.axis⟩
  | .RIGHT => ⟨p.x + steps, p.y, p.z, p.axis⟩
  | .FORWARD => ⟨p.x, p.y, p.z + steps, p.axis⟩
  | .BACKWARD => ⟨p.x, p.y, p.z - steps, p.axis⟩

/-- The `PLACES` table from `position.py`, in its literal order
(A, B, C, E, D, F), keyed by the slot letter. -/
def PLACES : List (Char × Position) :=
  [('A', ⟨0, -1, 0, .Z⟩),
   ('B', ⟨0, 0, -1, .X⟩),
   ('C', ⟨-1, 0, 0, .Y⟩),
   ('E', ⟨1, 0, 0, .Y⟩),
   ('D', ⟨0, 0, 1, .X⟩),
   ('F', ⟨0, 1, 0, .Z⟩)]

/-- A voxel from `voxel.py`: a unit cube identified by its center.  Each
field stores TWICE the source coordinate (see the file comment), so that all
arithmetic is exact integer arithmetic. -/
structure Voxel where
  x : Int
  y : Int
  z : Int
deriving DecidableEq

/-- The in-plane rotation block of `Voxel.move_to`: the three sequential
`if n == 1 / 2 / 3` rewrites of `(x, y)`. -/
def rotN (n : Int) (v : Voxel) : Voxel :=
  let v1 := if n = 1 then Voxel.mk (-v.y) v.x v.z else v
  let v2 := if n = 2 then Voxel.mk (-v1.x) (-v1.y) v1.z else v1
  if n = 3 then Voxel.mk v2.y (-v2.x) v2.z else v2

/-- The axis branch of `Voxel.move_to`: map into the slot frame of `p.axis`
and translate by the position (doubled, since voxel coordinates are doubled).
All three `Axis` values are covered, so the `Invalid axis` branch of the
source is unreachable. -/
def axisPart (v : Voxel) (p : Position) : Voxel :=
  match p.axis with
  | .Z => ⟨v.x + 2 * p.x, v.y + 2 * p.y, v.z + 2 * p.z⟩
  | .Y => ⟨v.x + 2 * p.x, -v.z + 2 * p.y, v.y + 2 * p.z⟩
  | .X => ⟨v.z + 2 * p.x, v.y + 2 * p.y, -v.x + 2 * p.z⟩

/-- `Voxel.move_to` from `voxel.py`.  Returns `none` exactly on the
`raise ValueError ... Invalid orientation` path: when `n > 3` still holds
after `n -= 4`. -/
def Voxel.moveTo (v : Voxel) (p : Position) (n : Int) : Option Voxel :=
  if n > 3 then
    if n - 4 > 3 then none
    else some (axisPart (rotN (n - 4) ⟨-v.x, v.y, -v.z⟩) p)
  else some (axisPart (rotN n v) p)

/-- The arithmetic of `Voxel.move_to` without the orientation-validity check.
Callers inside the solver (`align_voxels` via `Shape.from_text` with
orientations `0..7`, and pieces built from stored `VoxelState`s) never hit the
error branch; `moveTo_eq_moveU` below records the agreement. -/
def Voxel.moveU (v : Voxel) (p : Position) (n : Int) : Voxel :=
  if n > 3 then axisPart (rotN (n - 4) ⟨-v.x, v.y, -v.z⟩) p
  else axisPart (rotN n v) p

theorem moveTo_eq_moveU (v : Voxel) (p : Position) (n : Int) (h : n ≤ 7) :
    v.moveTo p n = some (v.moveU p n) := by
  unfold Voxel.moveTo Voxel.moveU
  split
  · rw [if_neg (by omega)]
  · rfl

/-- `Voxel.align` from `voxel.py`: floor each coordinate.  In doubled
representation, flooring `d / 2` yields the even value `2 * (d.fdiv 2)`. -/
def Voxel.align (v : Voxel) : Voxel :=
  ⟨2 * (v.x.fdiv 2), 2 * (v.y.fdiv 2), 2 * (v.z.fdiv 2)⟩

/-- `Voxel.is_inside` from `voxel.py`: each source coordinate strictly inside
`(-3, 3)`, i.e. each doubled coordinate strictly inside `(-6, 6)`. -/
def Voxel.isInside (v : Voxel) : Bool :=
  -6 < v.x && v.x < 6 && -6 < v.y && v.y < 6 && -6 < v.z && v.z < 6

/-- `Piece` from `piece.py`: shape index, position, orientation.  The shape
index and orientation are Python ints, hence `Int`. -/
structure Piece where
  shape : Int
  position : Position
  orientation : Int
deriving DecidableEq

/-- `Piece.move` from `piece.py`. -/
def Piece.move (pc : Piece) (d : Direction) (steps : Int) : Piece :=
  ⟨pc.shape, pc.position.move d steps, pc.orientation⟩

/-- The `REQUIRED` table from `shape.py`: for each slot, the 8 voxels a piece
must cover there (coordinates doubled; the source's `-0` entries are `0`). -/
def REQUIRED : List (Char × List Voxel) :=
  [('A', [⟨-2, -4, -6⟩, ⟨-2, -4, -4⟩, ⟨0, -4, -6⟩, ⟨0, -4, -4⟩,
          ⟨-2, -4, 4⟩, ⟨-2, -4, 2⟩, ⟨0, -4, 4⟩, ⟨0, -4, 2⟩]),
   ('B', [⟨-6, -2, -4⟩, ⟨-4, -2, -4⟩, ⟨-6, 0, -4⟩, ⟨-4, 0, -4⟩,
          ⟨4, -2, -4⟩, ⟨2, -2, -4⟩, ⟨4, 0, -4⟩, ⟨2, 0, -4⟩]),
   ('C', [⟨-4, -6, -2⟩, ⟨-4, -4, -2⟩, ⟨-4, -6, 0⟩, ⟨-4, -4, 0⟩,
          ⟨-4, 4, -2⟩, ⟨-4, 2, -2⟩, ⟨-4, 4, 0⟩, ⟨-4, 2, 0⟩]),
   ('D', [⟨-6, -2, 2⟩, ⟨-4, -2, 2⟩, ⟨-6, 0, 2⟩, ⟨-4, 0, 2⟩,
          ⟨4, -2, 2⟩, ⟨2, -2, 2⟩, ⟨4, 0, 2⟩, ⟨2, 0, 2⟩]),
   ('E', [⟨2, -6, -2⟩, ⟨2, -4, -2⟩, ⟨2, -6, 0⟩, ⟨2, -4, 0⟩,
          ⟨2, 4, -2⟩, ⟨2, 2, -2⟩, ⟨2, 4, 0⟩, ⟨2, 2, 0⟩]),
   ('F', [⟨-2, 2, -6⟩, ⟨-2, 2, -4⟩, ⟨0, 2, -6⟩, ⟨0, 2, -4⟩,
          ⟨-2, 2, 4⟩, ⟨-2, 2, 2⟩, ⟨0, 2, 4⟩, ⟨0, 2, 2⟩])]

/-- `VoxelState` from `shape.py`: a kept orientation together with its voxel
set.  The frozenset of the source is represented by the sorted tuple it was
built from; it is only ever used through membership. -/
structure VoxelState where
  orientation : Int
  voxels : List Voxel
deriving DecidableEq

/-- `align_voxels` from `shape.py`: move every voxel to the piece position and
orientation, then align to the grid.  Its `move_to` calls never take the
invalid-orientation branch (orientations come from `range(8)` or stored
tables), so the unchecked arithmetic `moveU` is used. -/
def alignVoxels (voxels : List Voxel) (p : Position) (o : Int) : List Voxel :=
  voxels.map (fun v => (v.moveU p o).align)

/-- `Shape` from `shape.py`: canonical voxels plus the per-slot table of
valid oriented voxel sets. -/
structure Shape where
  voxels : List Voxel
  orientations : List (Char × List VoxelState)
deriving DecidableEq

/-- `Shape.aligned_at` from `shape.py`. -/
def Shape.alignedAt (s : Shape) (pc : Piece) : Shape :=
  ⟨alignVoxels s.voxels pc.position pc.orientation, s.orientations⟩

/-- The per-voxel test of `Shape.inside_count`: some source coordinate below
`-2` or above `2`, i.e. some doubled coordinate below `-4` or above `4`. -/
def outOfFrame (v : Voxel) : Bool :=
  v.x < -4 || v.x > 4 || v.y < -4 || v.y > 4 || v.z < -4 || v.z > 4

/-- `Shape.inside_count` from `shape.py`: start from the voxel count and
subtract one for every out-of-frame voxel. -/
def Shape.insideCount (s : Shape) : Nat :=
  s.voxels.foldl (fun c v => if outOfFrame v then c - 1 else c) s.voxels.length

/-- `text.split(sep)` for a single-character separator, on char lists. -/
def splitOnChar (sep : Char) : List Char → List (List Char)
  | [] => [[]]
  | c :: cs =>
      match splitOnChar sep cs with
      | [] => [[]]
      | r :: rs => if c = sep then [] :: r :: rs else (c :: r) :: rs

/-- One row of `Shape.from_text`: the `for z, v in enumerate(line)` loop with
explicit column counter `z`; row `i` fixes `x = i % 2` and `y = i // 2`.
Each `x` character at column `z` yields the voxel with source center
`(x − 0.5, y − 0.5, 2.5 − z)`, stored doubled. -/
def lineVoxels (i : Nat) : Nat → List Char → List Voxel
  | _, [] => []
  | z, c :: cs =>
      if c = 'x' then
        Voxel.mk (2 * ((i % 2 : Nat) : Int) - 1) (2 * ((i / 2 : Nat) : Int) - 1)
            (5 - 2 * (z : Int)) :: lineVoxels i (z + 1) cs
      else lineVoxels i (z + 1) cs

/-- The `for i, line in enumerate(lines)` loop of `Shape.from_text`. -/
def rowsVoxels : Nat → List (List Char) → List Voxel
  | _, [] => []
  | i, line :: rest => lineVoxels i 0 line ++ rowsVoxels (i + 1) rest

/-- The lexicographic order by which Python `sorted` arranges voxel tuples. -/
def voxelLe (a b : Voxel) : Prop :=
  a.x < b.x ∨ (a.x = b.x ∧ (a.y < b.y ∨ (a.y = b.y ∧ a.z ≤ b.z)))

instance : DecidableRel voxelLe := fun a b => by
  unfold voxelLe; exact inferInstance

instance : IsTotal Voxel voxelLe :=
  ⟨fun a b => by unfold voxelLe; omega⟩

instance : IsTrans Voxel voxelLe :=
  ⟨fun a b c hab hbc => by unfold voxelLe at *; omega⟩

instance : IsAntisymm Voxel voxelLe :=
  ⟨fun a b hab hba => by
    obtain ⟨a1, a2, a3⟩ := a
    obtain ⟨b1, b2, b3⟩ := b
    simp only [voxelLe] at hab hba
    simp only [Voxel.mk.injEq]
    omega⟩

/-- `tuple(sorted(...))` from `Shape.from_text` (a stable ascending sort, like
Python's). -/
def sortVoxels (l : List Voxel) : List Voxel :=
  List.insertionSort voxelLe l

/-- Association-list lookup with default, modelling Python dict indexing. -/
def lookupOr {α : Type} (l : List (Char × α)) (c : Char) (d : α) : α :=
  match l.find? (fun pr => decide (pr.1 = c)) with
  | some pr => pr.2
  | none => d

/-- `len(frozenset(vs).intersection(REQUIRED[name]))`: the number of distinct
common voxels.  Each `REQUIRED` list is duplicate-free, so this is the count
of required voxels present in `vs`. -/
def numReq (req : List Voxel) (vs : List Voxel) : Nat :=
  req.countP (fun r => decide (r ∈ vs))

/-- The `for o in range(8)` loop of `Shape.from_text` for one slot: `seen`
models the `orientation_voxels` set of sorted tuples, `kept` the insertion
ordered `orientations` dict (its values paired with their keys). -/
def orientLoop (req sv : List Voxel) (place : Position) :
    List Nat → List (List Voxel) → List VoxelState → List VoxelState
  | [], _, kept => kept
  | o :: os, seen, kept =>
      let vs := sortVoxels (alignVoxels sv place (o : Int))
      if vs ∈ seen then orientLoop req sv place os seen kept
      else if numReq req vs = 8 then
        orientLoop req sv place os (vs :: seen) (kept ++ [⟨(o : Int), vs⟩])
      else orientLoop req sv place os (vs :: seen) kept

/-- `Shape.from_text` from `shape.py`: parse the rows, then for every slot of
`PLACES` enumerate orientations `0..7`, deduplicate by sorted voxel tuple and
keep those covering all 8 required voxels. -/
def Shape.fromText (text : List Char) : Shape :=
  let shapeVoxels := rowsVoxels 0 (splitOnChar '/' text)
  ⟨shapeVoxels,
   PLACES.map fun np =>
     (np.1, orientLoop (lookupOr REQUIRED np.1 []) shapeVoxels np.2
        (List.range 8) [] [])⟩

/-! ### Claim C8: `Shape.from_text` on malformed text

The source parser contains no validation at all: it never checks the number
of rows, the row lengths, or the characters; everything other than `x` is
treated as empty space, and a `Shape` is always returned. -/

theorem length_lineVoxels (i : Nat) :
    ∀ (z : Nat) (cs : List Char),
      (lineVoxels i z cs).length = cs.countP (fun c => decide (c = 'x')) := by
  intro z cs
  induction cs generalizing z with
  | nil => rfl
  | cons c cs ih =>
    rw [List.countP_cons]
    unfold lineVoxels
    split
    · simp_all
    · simp_all

theorem length_rowsVoxels :
    ∀ (lines : List (List Char)) (i : Nat),
      (rowsVoxels i lines).length =
        (lines.map (fun l => l.countP (fun c => decide (c = 'x')))).sum := by
  intro lines
  induction lines with
  | nil => intro i; rfl
  | cons line rest ih =>
    intro i
    unfold rowsVoxels
    rw [List.length_append, length_lineVoxels, ih]
    simp

theorem splitOnChar_ne_nil (sep : Char) (l : List Char) :
    splitOnChar sep l ≠ [] := by
  cases l with
  | nil => simp [splitOnChar]
  | cons c cs =>
    unfold splitOnChar
    cases splitOnChar sep cs with
    | nil => simp
    | cons r rs => dsimp only []; split <;> simp

theorem sum_countP_splitOnChar (text : List Char) :
    ((splitOnChar '/' text).map
        (fun l => l.countP (fun c => decide (c = 'x')))).sum =
      text.countP (fun c => decide (c = 'x')) := by
  induction text with
  | nil => rfl
  | cons c cs ih =>
    rw [List.countP_cons]
    unfold splitOnChar
    cases h : splitOnChar '/' cs with
    | nil => exact absurd h (splitOnChar_ne_nil '/' cs)
    | cons r rs =>
      rw [h] at ih
      dsimp only []
      split
      case isTrue hc =>
        subst hc
        simpa using ih
      case isFalse hc =>
        simp only [List.map_cons, List.sum_cons, List.countP_cons] at ih ⊢
        have : (decide (c = 'x') : Bool) = true → ¬ c = '/' := fun _ => hc
        omega

/-- C8 (amended): `Shape.from_text` accepts every text, returning a shape
with exactly one voxel per `x` character; wrong dimensions and foreign
characters are silently tolerated, never reported as an error (the source has
no failure path). -/
theorem fromText_voxel_count (text : List Char) :
    (Shape.fromText text).voxels.length =
      text.countP (fun c => decide (c = 'x')) := by
  show (rowsVoxels 0 (splitOnChar '/' text)).length = _
  rw [length_rowsVoxels, sum_countP_splitOnChar]

/-- C8 counterexample: the claim demands an `InvalidShape` failure on the
text `xxx` (one row of three characters), but `from_text` succeeds and
returns the three-voxel shape parsed from it. -/
theorem fromText_malformed_succeeds :
    (Shape.fromText ['x', 'x', 'x']).voxels =
      [⟨-1, -1, 5⟩, ⟨-1, -1, 3⟩, ⟨-1, -1, 1⟩] := by
  decide

/-! ### Claim C4: soundness of the orientation tables

Every entry of `orientations[L]` covers the 8 required voxels of slot `L`,
and two distinct entries always hold different voxel sets.  The proof tracks
the `orientation_voxels` dedup set through the `range(8)` loop; distinctness
of the stored sets follows because the sorted aligned voxel tuples are
duplicate-free (parsed voxels have odd doubled coordinates, on which the
rigid motion plus flooring is injective). -/

/-- All three doubled coordinates odd, i.e. the source coordinates are
half-integers.  Exactly the form produced by shape parsing. -/
def oddV (v : Voxel) : Prop :=
  v.x % 2 = 1 ∧ v.y % 2 = 1 ∧ v.z % 2 = 1

theorem mem_lineVoxels {i : Nat} :
    ∀ {z : Nat} {cs : List Char} {v : Voxel}, v ∈ lineVoxels i z cs →
      v.x = 2 * ((i % 2 : Nat) : Int) - 1 ∧
      v.y = 2 * ((i / 2 : Nat) : Int) - 1 ∧
      ∃ k : Nat, z ≤ k ∧ v.z = 5 - 2 * (k : Int) := by
  intro z cs
  induction cs generalizing z with
  | nil => intro v hv; simp [lineVoxels] at hv
  | cons c cs ih =>
    intro v hv
    unfold lineVoxels at hv
    by_cases hc : c = 'x'
    · rw [if_pos hc] at hv
      rcases List.mem_cons.1 hv with h | h
      · subst h
        exact ⟨rfl, rfl, z, le_refl z, rfl⟩
      · obtain ⟨hx, hy, k, hk, hz⟩ := ih h
        exact ⟨hx, hy, k, by omega, hz⟩
    · rw [if_neg hc] at hv
      obtain ⟨hx, hy, k, hk, hz⟩ := ih hv
      exact ⟨hx, hy, k, by omega, hz⟩

theorem nodup_lineVoxels (i : Nat) :
    ∀ (z : Nat) (cs : List Char), (lineVoxels i z cs).Nodup := by
  intro z cs
  induction cs generalizing z with
  | nil => exact List.nodup_nil
  | cons c cs ih =>
    unfold lineVoxels
    split
    · refine List.Nodup.cons ?_ (ih (z + 1))
      intro hmem
      obtain ⟨_, _, k, hk, hz⟩ := mem_lineVoxels hmem
      simp only [Voxel.mk.injEq] at hz
      omega
    · exact ih (z + 1)

theorem mem_rowsVoxels :
    ∀ {rows : List (List Char)} {i : Nat} {v : Voxel},
      v ∈ rowsVoxels i rows →
      ∃ j : Nat, i ≤ j ∧
        v.x = 2 * ((j % 2 : Nat) : Int) - 1 ∧
        v.y = 2 * ((j / 2 : Nat) : Int) - 1 ∧
        ∃ k : Nat, v.z = 5 - 2 * (k : Int) := by
  intro rows
  induction rows with
  | nil => intro i v hv; simp [rowsVoxels] at hv
  | cons line rest ih =>
    intro i v hv
    rcases List.mem_append.1 hv with h | h
    · obtain ⟨hx, hy, k, _, hz⟩ := mem_lineVoxels h
      exact ⟨i, le_refl i, hx, hy, k, hz⟩
    · obtain ⟨j, hj, hrest⟩ := ih h
      exact ⟨j, by omega, hrest⟩

theorem nodup_rowsVoxels :
    ∀ (rows : List (List Char)) (i : Nat), (rowsVoxels i rows).Nodup := by
  intro rows
  induction rows with
  | nil => intro i; exact List.nodup_nil
  | cons line rest ih =>
    intro i
    refine List.Nodup.append (nodup_lineVoxels i 0 line) (ih (i + 1)) ?_
    intro v hline hrest
    obtain ⟨hx, hy, _⟩ := mem_lineVoxels hline
    obtain ⟨j, hj, hx2, hy2, _⟩ := mem_rowsVoxels hrest
    rw [hx] at hx2
    rw [hy] at hy2
    omega

theorem oddV_of_mem_rowsVoxels {rows : List (List Char)} {i : Nat} {v : Voxel}
    (hv : v ∈ rowsVoxels i rows) : oddV v := by
  obtain ⟨j, _, hx, hy, k, hz⟩ := mem_rowsVoxels hv
  unfold oddV
  omega

theorem oddV_moveU (v : Voxel) (p : Position) (o : Int) (h : oddV v) :
    oddV (v.moveU p o) := by
  obtain ⟨px, py, pz, ax⟩ := p
  obtain ⟨vx, vy, vz⟩ := v
  simp only [oddV] at h ⊢
  cases ax <;>
    simp only [Voxel.moveU, rotN, axisPart] <;>
    split_ifs <;> simp_all

theorem moveU_inj {v w : Voxel} (p : Position) (o : Int)
    (h : v.moveU p o = w.moveU p o) : v = w := by
  obtain ⟨px, py, pz, ax⟩ := p
  obtain ⟨vx, vy, vz⟩ := v
  obtain ⟨wx, wy, wz⟩ := w
  simp only [Voxel.mk.injEq]
  cases ax <;>
    simp only [Voxel.moveU, rotN, axisPart] at h <;>
    split_ifs at h <;> simp_all [Voxel.mk.injEq]

theorem align_inj_oddV {v w : Voxel} (hv : oddV v) (hw : oddV w)
    (h : v.align = w.align) : v = w := by
  obtain ⟨vx, vy, vz⟩ := v
  obtain ⟨wx, wy, wz⟩ := w
  simp only [oddV] at hv hw
  simp only [Voxel.align, Voxel.mk.injEq,
    Int.fdiv_eq_ediv _ (by norm_num : (0:Int) ≤ 2)] at h ⊢
  omega

theorem nodup_alignVoxels {sv : List Voxel} (p : Position) (o : Int)
    (hodd : ∀ v ∈ sv, oddV v) (hnd : sv.Nodup) :
    (alignVoxels sv p o).Nodup := by
  refine List.Nodup.map_on ?_ hnd
  intro a ha b hb hab
  exact moveU_inj p o
    (align_inj_oddV (oddV_moveU a p o (hodd a ha)) (oddV_moveU b p o (hodd b hb)) hab)

theorem sorted_sortVoxels (l : List Voxel) :
    List.Sorted voxelLe (sortVoxels l) :=
  List.sorted_insertionSort voxelLe l

theorem nodup_sortVoxels {l : List Voxel} (h : l.Nodup) :
    (sortVoxels l).Nodup :=
  (List.perm_insertionSort voxelLe l).symm.nodup h

theorem toFinset_ne_of_sorted_nodup_ne {l1 l2 : List Voxel}
    (s1 : List.Sorted voxelLe l1) (s2 : List.Sorted voxelLe l2)
    (n1 : l1.Nodup) (n2 : l2.Nodup) (hne : l1 ≠ l2) :
    l1.toFinset ≠ l2.toFinset := by
  intro hf
  apply hne
  have hmem : ∀ a, a ∈ l1 ↔ a ∈ l2 := fun a => by
    rw [← List.mem_toFinset, hf, List.mem_toFinset]
  exact List.eq_of_perm_of_sorted
    ((List.perm_ext_iff_of_nodup n1 n2).2 hmem) s1 s2

theorem orientLoop_inv (req sv : List Voxel) (place : Position)
    (hnd : ∀ o : Int, (alignVoxels sv place o).Nodup) :
    ∀ (os : List Nat) (seen : List (List Voxel)) (kept : List VoxelState),
      (∀ e ∈ kept, e.voxels ∈ seen) →
      (∀ l ∈ seen, List.Sorted voxelLe l ∧ l.Nodup) →
      (kept.Pairwise fun e1 e2 => e1.voxels ≠ e2.voxels) →
      (∀ e ∈ kept, List.Sorted voxelLe e.voxels ∧ e.voxels.Nodup ∧
          numReq req e.voxels = 8) →
      ((orientLoop req sv place os seen kept).Pairwise
          fun e1 e2 => e1.voxels ≠ e2.voxels) ∧
      ∀ e ∈ orientLoop req sv place os seen kept,
        List.Sorted voxelLe e.voxels ∧ e.voxels.Nodup ∧
          numReq req e.voxels = 8 := by
  intro os
  induction os with
  | nil => intro seen kept _ _ hpw hkp; exact ⟨hpw, hkp⟩
  | cons o os ih =>
    intro seen kept hks hseen hpw hkp
    unfold orientLoop
    by_cases hmem : sortVoxels (alignVoxels sv place (o : Int)) ∈ seen
    · rw [if_pos hmem]
      exact ih seen kept hks hseen hpw hkp
    · rw [if_neg hmem]
      have hsorted := sorted_sortVoxels (alignVoxels sv place (o : Int))
      have hnodup := nodup_sortVoxels (hnd (o : Int))
      by_cases hreq : numReq req (sortVoxels (alignVoxels sv place (o : Int))) = 8
      · rw [if_pos hreq]
        refine ih _ _ ?_ ?_ ?_ ?_
        · intro e he
          rcases List.mem_append.1 he with h | h
          · exact List.mem_cons_of_mem _ (hks e h)
          · simp only [List.mem_singleton] at h
            subst h
            exact List.mem_cons_self _ _
        · intro l hl
          rcases List.mem_cons.1 hl with h | h
          · subst h; exact ⟨hsorted, hnodup⟩
          · exact hseen l h
        · rw [List.pairwise_append]
          refine ⟨hpw, List.pairwise_singleton _ _, ?_⟩
          intro a ha b hb
          simp only [List.mem_singleton] at hb
          subst hb
          dsimp only
          intro hcontra
          exact hmem (hcontra ▸ hks a ha)
        · intro e he
          rcases List.mem_append.1 he with h | h
          · exact hkp e h
          · simp only [List.mem_singleton] at h
            subst h
            exact ⟨hsorted, hnodup, hreq⟩
      · rw [if_neg hreq]
        refine ih _ _ ?_ ?_ hpw hkp
        · intro e he
          exact List.mem_cons_of_mem _ (hks e he)
        · intro l hl
          rcases List.mem_cons.1 hl with h | h
          · subst h; exact ⟨hsorted, hnodup⟩
          · exact hseen l h

/-- The two C4 properties for one slot's table. -/
theorem orientEntry_sound (req sv : List Voxel) (place : Position)
    (hnd : ∀ o : Int, (alignVoxels sv place o).Nodup)
    (hlen : req.length = 8) :
    ((orientLoop req sv place (List.range 8) [] []).Pairwise
        fun e1 e2 => e1.voxels.toFinset ≠ e2.voxels.toFinset) ∧
    ∀ e ∈ orientLoop req sv place (List.range 8) [] [],
      ∀ r ∈ req, r ∈ e.voxels := by
  obtain ⟨hpw, hall⟩ := orientLoop_inv req sv place hnd (List.range 8) [] []
    (by simp) (by simp) (List.Pairwise.nil) (by simp)
  constructor
  · refine hpw.imp_of_mem ?_
    intro e1 e2 h1 h2 hne
    obtain ⟨s1, n1, _⟩ := hall e1 h1
    obtain ⟨s2, n2, _⟩ := hall e2 h2
    exact toFinset_ne_of_sorted_nodup_ne s1 s2 n1 n2 hne
  · intro e he r hr
    obtain ⟨_, _, hcnt⟩ := hall e he
    have : numReq req e.voxels = req.length := by rw [hcnt, hlen]
    have hforall := List.countP_eq_length.1 this
    exact of_decide_eq_true (hforall r hr)

theorem nodup_align_fromText (text : List Char) (place : Position) (o : Int) :
    (alignVoxels (rowsVoxels 0 (splitOnChar '/' text)) place o).Nodup :=
  nodup_alignVoxels place o (fun _ hv => oddV_of_mem_rowsVoxels hv)
    (nodup_rowsVoxels _ 0)

theorem lookupOr_places_map (g : Char → Position → List VoxelState) (L : Char) :
    lookupOr (PLACES.map fun np => (np.1, g np.1 np.2)) L [] =
      if L = 'A' then g 'A' ⟨0, -1, 0, .Z⟩
      else if L = 'B' then g 'B' ⟨0, 0, -1, .X⟩
      else if L = 'C' then g 'C' ⟨-1, 0, 0, .Y⟩
      else if L = 'E' then g 'E' ⟨1, 0, 0, .Y⟩
      else if L = 'D' then g 'D' ⟨0, 0, 1, .X⟩
      else if L = 'F' then g 'F' ⟨0, 1, 0, .Z⟩
      else [] := by
  by_cases h1 : L = 'A'
  · subst h1; rfl
  rw [if_neg h1]
  by_cases h2 : L = 'B'
  · subst h2; rfl
  rw [if_neg h2]
  by_cases h3 : L = 'C'
  · subst h3; rfl
  rw [if_neg h3]
  by_cases h4 : L = 'E'
  · subst h4; rfl
  rw [if_neg h4]
  by_cases h5 : L = 'D'
  · subst h5; rfl
  rw [if_neg h5]
  by_cases h6 : L = 'F'
  · subst h6; rfl
  rw [if_neg h6]
  simp only [PLACES, List.map_cons, List.map_nil, lookupOr, List.find?,
    decide_eq_false (show ¬ ('A' = L) from fun h => h1 h.symm),
    decide_eq_false (show ¬ ('B' = L) from fun h => h2 h.symm),
    decide_eq_false (show ¬ ('C' = L) from fun h => h3 h.symm),
    decide_eq_false (show ¬ ('E' = L) from fun h => h4 h.symm),
    decide_eq_false (show ¬ ('D' = L) from fun h => h5 h.symm),
    decide_eq_false (show ¬ ('F' = L) from fun h => h6 h.symm)]

/-- C4: for every shape built by `Shape.from_text` and every slot label, the
entries of `orientations[L]` hold pairwise different voxel sets, and every
entry contains all 8 required voxels of `REQUIRED[L]`. -/
theorem fromText_orientations_sound (text : List Char) (L : Char) :
    ((lookupOr (Shape.fromText text).orientations L []).Pairwise
        fun e1 e2 => e1.voxels.toFinset ≠ e2.voxels.toFinset) ∧
    ∀ e ∈ lookupOr (Shape.fromText text).orientations L [],
      ∀ r ∈ lookupOr REQUIRED L [], r ∈ e.voxels := by
  have horient : (Shape.fromText text).orientations =
      PLACES.map fun np =>
        (np.1, orientLoop (lookupOr REQUIRED np.1 [])
          (rowsVoxels 0 (splitOnChar '/' text)) np.2 (List.range 8) [] []) := rfl
  rw [horient, lookupOr_places_map
    (fun c pos => orientLoop (lookupOr REQUIRED c [])
      (rowsVoxels 0 (splitOnChar '/' text)) pos (List.range 8) [] []) L]
  by_cases h1 : L = 'A'
  · subst h1
    simp only [if_pos rfl]
    exact orientEntry_sound _ _ _ (nodup_align_fromText text _) (by decide)
  rw [if_neg h1]
  by_cases h2 : L = 'B'
  · subst h2
    simp only [if_pos rfl]
    exact orientEntry_sound _ _ _ (nodup_align_fromText text _) (by decide)
  rw [if_neg h2]
  by_cases h3 : L = 'C'
  · subst h3
    simp only [if_pos rfl]
    exact orientEntry_sound _ _ _ (nodup_align_fromText text _) (by decide)
  rw [if_neg h3]
  by_cases h4 : L = 'E'
  · subst h4
    simp only [if_pos rfl]
    exact orientEntry_sound _ _ _ (nodup_align_fromText text _) (by decide)
  rw [if_neg h4]
  by_cases h5 : L = 'D'
  · subst h5
    simp only [if_pos rfl]
    exact orientEntry_sound _ _ _ (nodup_align_fromText text _) (by decide)
  rw [if_neg h5]
  by_cases h6 : L = 'F'
  · subst h6
    simp only [if_pos rfl]
    exact orientEntry_sound _ _ _ (nodup_align_fromText text _) (by decide)
  rw [if_neg h6]
  simp

/-- Witness for C4 at the solid 12-voxel shape text and slot A. -/
theorem fromText_orientations_sound_witness :
    ((lookupOr (Shape.fromText
        ['x','x','x','x','x','x','/','x','x','x','x','x','x','/',
         'x','x','x','x','x','x','/','x','x','x','x','x','x']).orientations
        'A' []).Pairwise
        fun e1 e2 => e1.voxels.toFinset ≠ e2.voxels.toFinset) ∧
    ∀ e ∈ lookupOr (Shape.fromText
        ['x','x','x','x','x','x','/','x','x','x','x','x','x','/',
         'x','x','x','x','x','x','/','x','x','x','x','x','x']).orientations
        'A' [],
      ∀ r ∈ lookupOr REQUIRED 'A' [], r ∈ e.voxels :=
  fromText_orientations_sound
    ['x','x','x','x','x','x','/','x','x','x','x','x','x','/',
     'x','x','x','x','x','x','/','x','x','x','x','x','x'] 'A'

/-! ### Claim C5: staged decomposition of `Voxel.move_to`

The staged functions below follow the claim text: flip when `n ≥ 4`, rotate
about Z by `(n mod 4)·90°`, re-align axes, translate by the position (doubled
here because voxel coordinates are doubled). -/

/-- Stage (1) of the claimed decomposition: for `n ≥ 4` negate `x` and `z`. -/
def specFlip (n : Int) (v : Voxel) : Voxel :=
  if 4 ≤ n then ⟨-v.x, v.y, -v.z⟩ else v

/-- Stage (2): rotation about Z by `k·90°` in the claimed convention. -/
def specRot (k : Int) (v : Voxel) : Voxel :=
  if k = 1 then ⟨-v.y, v.x, v.z⟩
  else if k = 2 then ⟨-v.x, -v.y, v.z⟩
  else if k = 3 then ⟨v.y, -v.x, v.z⟩
  else v

/-- Stage (3): axis re-alignment (identity for Z; `(x,y,z) ← (x,−z,y)` for Y;
`(x,y,z) ← (z,y,−x)` for X). -/
def specAxis (a : Axis) (v : Voxel) : Voxel :=
  match a with
  | .Z => v
  | .Y => ⟨v.x, -v.z, v.y⟩
  | .X => ⟨v.z, v.y, -v.x⟩

/-- Stage (4): translation by `(p.x, p.y, p.z)` (doubled coordinates). -/
def specTranslate (p : Position) (v : Voxel) : Voxel :=
  ⟨v.x + 2 * p.x, v.y + 2 * p.y, v.z + 2 * p.z⟩

/-- The claimed composition of the four stages. -/
def moveToSpec (v : Voxel) (p : Position) (n : Int) : Voxel :=
  specTranslate p (specAxis p.axis (specRot (n % 4) (specFlip n v)))

/-- C5: for every voxel, every orientation `n ∈ 0..7` and every position,
`Voxel.move_to` equals the composition of the flip (`n ≥ 4`), the rotation
about Z by `(n mod 4)·90°`, the axis re-alignment and the translation. -/
theorem moveTo_eq_staged (v : Voxel) (p : Position) (n : Int)
    (h0 : 0 ≤ n) (h7 : n ≤ 7) :
    v.moveTo p n = some (moveToSpec v p n) := by
  obtain ⟨px, py, pz, ax⟩ := p
  interval_cases n <;> cases ax <;>
    simp [Voxel.moveTo, moveToSpec, specFlip, specRot, specAxis, specTranslate,
      rotN, axisPart]

/-- Witness for C5 at a concrete input. -/
theorem moveTo_eq_staged_witness :
    Voxel.moveTo ⟨1, -1, 5⟩ ⟨0, -1, 0, .Z⟩ 5 =
      some (moveToSpec ⟨1, -1, 5⟩ ⟨0, -1, 0, .Z⟩ 5) :=
  moveTo_eq_staged ⟨1, -1, 5⟩ ⟨0, -1, 0, .Z⟩ 5 (by decide) (by decide)

/-! ### Claim C7: rejection of out-of-range orientations

The source checks `n > 3` twice (before and after `n -= 4`) but never checks
`n < 0`: negative orientations fall through every rotation test and are
accepted as an unrotated placement. -/

/-- C7 (amended): `Voxel.move_to` fails with the invalid-orientation error
exactly when the orientation exceeds 7; orientations below 0 are NOT
rejected. -/
theorem moveTo_none_iff (v : Voxel) (p : Position) (n : Int) :
    v.moveTo p n = none ↔ 7 < n := by
  unfold Voxel.moveTo
  split
  · split
    · simp; omega
    · simp; omega
  · simp; omega

/-- C7 counterexample: at orientation `-1` (outside `0..7`) `move_to` returns
a voxel instead of failing. -/
theorem moveTo_neg_one_succeeds :
    Voxel.moveTo ⟨1, 2, 3⟩ ⟨0, 0, 0, .Z⟩ (-1) = some ⟨1, 2, 3⟩ := by
  decide

/-! ### The puzzle layer: `puzzle.py` -/

/-- `PuzzleState` from `puzzle.py`: the ordered tuple of placed pieces.
Being a named tuple, its Python equality and hash are those of the tuple,
hence order-sensitive (cf. claim C2). -/
structure PuzzleState where
  pieces : List Piece
deriving DecidableEq

/-- `Move` from `puzzle.py`: the set of pieces moved together, a direction
and a step count.  The Python `set` of pieces is represented by the list of
its elements; it is only consumed through membership tests. -/
structure Move where
  pieces : List Piece
  direction : Direction
  steps : Int
deriving DecidableEq

/-- `Puzzle` from `puzzle.py`: the shape catalog plus the current pieces. -/
structure Puzzle where
  shapes : List Shape
  pieces : List Piece
deriving DecidableEq

/-- `self.shapes[piece.id]`: list indexing by the piece's shape index.  For
an index outside `0..len-1` the embedding returns the empty shape (Python
would raise or wrap around; no execution below indexes out of range). -/
def Puzzle.shapeAt (pz : Puzzle) (i : Int) : Shape :=
  if h : 0 ≤ i ∧ i.toNat < pz.shapes.length then pz.shapes.get ⟨i.toNat, h.2⟩
  else ⟨[], []⟩

/-- `Puzzle.state`. -/
def Puzzle.state (pz : Puzzle) : PuzzleState :=
  ⟨pz.pieces⟩

/-- `Puzzle.to_state`. -/
def Puzzle.toState (pz : Puzzle) (s : PuzzleState) : Puzzle :=
  ⟨pz.shapes, s.pieces⟩

/-- `Puzzle.voxels(piece)`: the aligned voxels of the piece's shape. -/
def Puzzle.voxelsOf (pz : Puzzle) (p : Piece) : List Voxel :=
  ((pz.shapeAt p.shape).alignedAt p).voxels

/-- `Puzzle.inside_count(piece)`. -/
def Puzzle.insideCountOf (pz : Puzzle) (p : Piece) : Nat :=
  ((pz.shapeAt p.shape).alignedAt p).insideCount

/-- `Puzzle.score`: total number of in-frame voxels over all pieces. -/
def Puzzle.score (pz : Puzzle) : Nat :=
  (pz.pieces.map (fun p => pz.insideCountOf p)).sum

/-- The `for piece in self.pieces` loop of `Puzzle.move`: members of the
move's set are translated and kept only if still partly inside the frame;
all other pieces are appended unchanged. -/
def movePieces (pz : Puzzle) (m : Move) : List Piece → List Piece
  | [] => []
  | piece :: rest =>
      if piece ∈ m.pieces then
        if 0 < ((pz.shapeAt piece.shape).alignedAt
            (piece.move m.direction m.steps)).insideCount then
          piece.move m.direction m.steps :: movePieces pz m rest
        else movePieces pz m rest
      else piece :: movePieces pz m rest

/-- `Puzzle.move` from `puzzle.py`. -/
def Puzzle.move (pz : Puzzle) (m : Move) : Puzzle :=
  ⟨pz.shapes, movePieces pz m pz.pieces⟩

/-- The functional characterization of the `Puzzle.move` loop. -/
theorem movePieces_eq_filterMap (pz : Puzzle) (m : Move) (l : List Piece) :
    movePieces pz m l = l.filterMap fun piece =>
      if piece ∈ m.pieces then
        if 0 < ((pz.shapeAt piece.shape).alignedAt
            (piece.move m.direction m.steps)).insideCount then
          some (piece.move m.direction m.steps)
        else none
      else some piece := by
  induction l with
  | nil => rfl
  | cons piece rest ih =>
    unfold movePieces
    rw [List.filterMap_cons]
    split
    · split
      · simp only [*]
      · simp only [*]
    · simp only [*]

/-! ### Claim C2: `PuzzleState` identity is by the ordered tuple -/

/-- C2 (amended): `PuzzleState` equality is equality of the ordered piece
tuples, so two states holding the same pieces in different insertion orders
are distinct whenever the two pieces differ. -/
theorem puzzleState_order_sensitive (a b : Piece) (hab : a ≠ b) :
    PuzzleState.mk [a, b] ≠ PuzzleState.mk [b, a] := by
  intro h
  simp only [PuzzleState.mk.injEq, List.cons.injEq] at h
  exact hab h.1

/-- Witness for C2 (amended) at two concrete distinct pieces. -/
theorem puzzleState_order_sensitive_witness :
    PuzzleState.mk [⟨0, ⟨0, -1, 0, .Z⟩, 0⟩, ⟨1, ⟨0, 0, -1, .X⟩, 0⟩] ≠
      PuzzleState.mk [⟨1, ⟨0, 0, -1, .X⟩, 0⟩, ⟨0, ⟨0, -1, 0, .Z⟩, 0⟩] :=
  puzzleState_order_sensitive _ _ (by decide)

/-- C2 counterexample: two states whose piece tuples are permutations of one
another — the same unordered multiset — are nevertheless unequal. -/
theorem puzzleState_perm_but_ne :
    (PuzzleState.mk [⟨0, ⟨0, -1, 0, .Z⟩, 0⟩, ⟨1, ⟨0, 0, -1, .X⟩, 0⟩]).pieces.Perm
      (PuzzleState.mk [⟨1, ⟨0, 0, -1, .X⟩, 0⟩, ⟨0, ⟨0, -1, 0, .Z⟩, 0⟩]).pieces ∧
    PuzzleState.mk [⟨0, ⟨0, -1, 0, .Z⟩, 0⟩, ⟨1, ⟨0, 0, -1, .X⟩, 0⟩] ≠
      PuzzleState.mk [⟨1, ⟨0, 0, -1, .X⟩, 0⟩, ⟨0, ⟨0, -1, 0, .Z⟩, 0⟩] := by
  constructor
  · decide
  · decide

/-! ### Claim C9: frame conditions of `Puzzle.move` -/

theorem filter_sublist_movePieces (pz : Puzzle) (m : Move) :
    ∀ l : List Piece,
      (l.filter fun q => decide (q ∉ m.pieces)).Sublist (movePieces pz m l) := by
  intro l
  induction l with
  | nil => exact List.Sublist.refl []
  | cons q rest ih =>
    unfold movePieces
    by_cases hq : q ∈ m.pieces
    · rw [if_pos hq, List.filter_cons, if_neg (by simpa using hq)]
      split
      · exact ih.cons _
      · exact ih
    · rw [if_neg hq, List.filter_cons, if_pos (by simpa using hq)]
      exact ih.cons₂ q

/-- C9: `Puzzle.move` leaves the shape tuple unchanged, keeps every piece not
in the move's set unchanged and present, and preserves the relative order of
the retained pieces: the untouched pieces form a sublist of the result in
their original order, and the whole result is the order-preserving image
(`filterMap`) of the original tuple. -/
theorem move_frame (pz : Puzzle) (m : Move) :
    (pz.move m).shapes = pz.shapes ∧
    ((pz.pieces.filter fun q => decide (q ∉ m.pieces)).Sublist
        (pz.move m).pieces) ∧
    (∀ q ∈ pz.pieces, q ∉ m.pieces → q ∈ (pz.move m).pieces) ∧
    (pz.move m).pieces = pz.pieces.filterMap fun piece =>
      if piece ∈ m.pieces then
        if 0 < ((pz.shapeAt piece.shape).alignedAt
            (piece.move m.direction m.steps)).insideCount then
          some (piece.move m.direction m.steps)
        else none
      else some piece := by
  refine ⟨rfl, filter_sublist_movePieces pz m pz.pieces, ?_,
    movePieces_eq_filterMap pz m pz.pieces⟩
  intro q hq hnot
  exact (filter_sublist_movePieces pz m pz.pieces).subset
    (List.mem_filter.2 ⟨hq, by simpa using hnot⟩)

/-- Witness for C9: a piece outside the move's set survives a concrete move
unchanged. -/
theorem move_frame_witness :
    (⟨0, ⟨0, -1, 0, .Z⟩, 0⟩ : Piece) ∈
      (Puzzle.move ⟨[⟨[⟨1, 1, 1⟩], []⟩], [⟨0, ⟨0, -1, 0, .Z⟩, 0⟩]⟩
        ⟨[], .FORWARD, 1⟩).pieces :=
  (move_frame ⟨[⟨[⟨1, 1, 1⟩], []⟩], [⟨0, ⟨0, -1, 0, .Z⟩, 0⟩]⟩
      ⟨[], .FORWARD, 1⟩).2.2.1
    ⟨0, ⟨0, -1, 0, .Z⟩, 0⟩ (by decide) (by decide)

/-! ### Claim C6: `score` counts exactly the strictly-inside aligned voxels

`Shape.inside_count` tests doubled coordinates against `[-4, 4]` (source
`[-2, 2]`), while `Voxel.is_inside` tests them against the open `(-6, 6)`
(source `(-3, 3)`); on integer source coordinates — even doubled values,
which is what `align` always produces — the two agree. -/

theorem insideFold_eq (l : List Voxel) :
    ∀ n : Nat,
      l.foldl (fun c v => if outOfFrame v then c - 1 else c) n =
        n - l.countP outOfFrame := by
  induction l with
  | nil => intro n; rfl
  | cons v rest ih =>
    intro n
    rw [List.foldl_cons, List.countP_cons]
    by_cases h : outOfFrame v = true
    · rw [if_pos h, ih, if_pos h]
      omega
    · rw [if_neg h, ih, if_neg h]
      omega

theorem countP_not_outOfFrame (l : List Voxel) :
    l.countP (fun v => !outOfFrame v) + l.countP outOfFrame = l.length := by
  induction l with
  | nil => rfl
  | cons v rest ih =>
    rw [List.countP_cons, List.countP_cons, List.length_cons]
    by_cases h : outOfFrame v = true <;> simp [h] <;> omega

theorem insideCount_eq_countP (s : Shape) :
    s.insideCount = s.voxels.countP (fun v => !outOfFrame v) := by
  unfold Shape.insideCount
  rw [insideFold_eq]
  have h1 := countP_not_outOfFrame s.voxels
  have h2 := List.countP_le_length outOfFrame (l := s.voxels)
  omega

/-- C6: for every puzzle whose pieces' aligned voxels all have integer source
coordinates (even doubled coordinates), `score` equals the number of occupied
voxels that satisfy the strict `is_inside` test — the `inside_count` bound
check agrees with `is_inside` on such voxels. -/
theorem score_eq_count_isInside (pz : Puzzle)
    (h : ∀ p ∈ pz.pieces, ∀ v ∈ pz.voxelsOf p,
        v.x % 2 = 0 ∧ v.y % 2 = 0 ∧ v.z % 2 = 0) :
    pz.score = (pz.pieces.flatMap fun p => pz.voxelsOf p).countP Voxel.isInside := by
  unfold Puzzle.score
  rw [List.countP_flatMap]
  refine congrArg List.sum (List.map_congr_left ?_)
  intro p hp
  show pz.insideCountOf p = (pz.voxelsOf p).countP Voxel.isInside
  unfold Puzzle.insideCountOf
  rw [show ((pz.shapeAt p.shape).alignedAt p) =
    Shape.mk (pz.voxelsOf p) (pz.shapeAt p.shape).orientations from rfl]
  rw [insideCount_eq_countP]
  refine List.countP_congr ?_
  intro v hv
  have hev := h p hp v hv
  simp only [outOfFrame, Voxel.isInside, Bool.not_eq_true', Bool.or_eq_false_iff,
    Bool.and_eq_true, decide_eq_false_iff_not, decide_eq_true_eq, not_lt]
  omega

/-- Witness for C6 at a concrete one-piece puzzle. -/
theorem score_eq_count_isInside_witness :
    Puzzle.score ⟨[⟨[⟨1, 1, 1⟩], []⟩], [⟨0, ⟨0, 0, 0, .Z⟩, 0⟩]⟩ =
      ((⟨[⟨[⟨1, 1, 1⟩], []⟩], [⟨0, ⟨0, 0, 0, .Z⟩, 0⟩]⟩ : Puzzle).pieces.flatMap
        fun p => Puzzle.voxelsOf ⟨[⟨[⟨1, 1, 1⟩], []⟩], [⟨0, ⟨0, 0, 0, .Z⟩, 0⟩]⟩
          p).countP Voxel.isInside :=
  score_eq_count_isInside _ (by decide)

/-! ### The move generator: `Puzzle.valid_moves` -/

/-- `itertools.combinations`: all subsequences of the given size, in the
source's emission order. -/
def combinations {α : Type} : Nat → List α → List (List α)
  | 0, _ => [[]]
  | _ + 1, [] => []
  | n + 1, x :: xs =>
      (combinations n xs).map (fun c => x :: c) ++ combinations (n + 1) xs

/-- The `for p in current_pieces` body of one `while can_move` iteration:
move each piece one step, add its inside count, and stop at the first piece
whose voxels collide with `new_voxels`; surviving pieces extend `new_voxels`
and `next_pieces`.  Returns `(can_move, inside_count, next_pieces)`. -/
def advance (pz : Puzzle) (d : Direction) :
    List Piece → List Voxel → Nat → List Piece → (Bool × Nat × List Piece)
  | [], _, count, nexts => (true, count, nexts)
  | p :: rest, newVoxels, count, nexts =>
      let nextP := p.move d 1
      let shape := (pz.shapeAt p.shape).alignedAt nextP
      if shape.voxels.any (fun v => decide (v ∈ newVoxels)) then
        (false, count + shape.insideCount, nexts)
      else
        advance pz d rest (newVoxels ++ shape.voxels)
          (count + shape.insideCount) (nexts ++ [nextP])

/-- The `while can_move` loop of `valid_moves`, fuel-bounded.  Mirrors the
source exactly: on a successful iteration the step count advances and the
pieces are replaced; the loop stops with `is_outside` when the accumulated
inside count is zero (even when that iteration was blocked by a collision),
and without it when blocked with a positive inside count. -/
def stepLoop (pz : Puzzle) (oldVoxels : List Voxel) (d : Direction) :
    Nat → List Piece → Nat → (Nat × Bool)
  | 0, _, steps => (steps, false)
  | fuel + 1, current, steps =>
      match advance pz d current oldVoxels 0 [] with
      | (canMove, insideCount, nexts) =>
          let steps1 := if canMove then steps + 1 else steps
          if insideCount = 0 then (steps1, true)
          else if canMove then stepLoop pz oldVoxels d fuel nexts steps1
          else (steps1, false)

/-- Fuel for the `while can_move` loop; each concrete loop below stops after
a handful of iterations, far below this bound. -/
def stepFuel : Nat := 1000

/-- `Puzzle.valid_moves` from `puzzle.py`: enumerate subset sizes, subsets,
and directions; a subset that advanced at least one step is emitted, with its
step count clamped to 1 unless the subset fully left the puzzle. -/
def Puzzle.validMoves (pz : Puzzle) : List (Move × PuzzleState) :=
  let voxels := pz.pieces.flatMap fun p => pz.voxelsOf p
  let sizes :=
    if pz.pieces.length > pz.shapes.length / 2 then
      List.range' 1 (pz.pieces.length / 2)
    else [1]
  sizes.flatMap fun size =>
    (combinations size pz.pieces).flatMap fun subset =>
      let oldVoxels := voxels.filter fun v =>
        !(subset.any fun p => decide (v ∈ pz.voxelsOf p))
      directionList.filterMap fun d =>
        match stepLoop pz oldVoxels d stepFuel subset 0 with
        | (steps, isOut) =>
            if steps = 0 then none
            else
              let mv : Move := ⟨subset, d, ((if isOut then steps else 1 : Nat) : Int)⟩
              some (mv, (pz.move mv).state)

/-! ### Claim C3: removal moves

The claim asserts that every move emitted with `is_outside` set removes all
pieces of its subset.  That holds when `is_outside` arose from a completed
step with total inside count zero, but `is_outside` is also set when a step
is BLOCKED by a collision while the partial inside count is zero (e.g.
colliding with another piece's voxels that lie outside the frame); the
emitted move then uses the last successful step count, at which the subset
can still be partly inside the frame — and then it is kept, not removed. -/

/-- C3 (amended): a piece of the moved set appears in the resulting state
only as its translated version and only when that version still has voxels
inside the frame; equivalently, every piece of the moved set whose resulting
voxel set has zero voxels inside the frame is removed.  (The claim's stronger
reading — `is_outside` implies removal of all of S — is refuted by the
counterexample below.) -/
theorem move_result_members (pz : Puzzle) (m : Move) :
    ∀ r ∈ (pz.move m).pieces,
      (r ∈ pz.pieces ∧ r ∉ m.pieces) ∨
      (∃ q ∈ pz.pieces, q ∈ m.pieces ∧ r = q.move m.direction m.steps ∧
        0 < ((pz.shapeAt q.shape).alignedAt
          (q.move m.direction m.steps)).insideCount) := by
  intro r hr
  have : r ∈ movePieces pz m pz.pieces := hr
  rw [movePieces_eq_filterMap] at this
  obtain ⟨q, hq, heq⟩ := List.mem_filterMap.1 this
  by_cases hmem : q ∈ m.pieces
  · rw [if_pos hmem] at heq
    by_cases hin : 0 < ((pz.shapeAt q.shape).alignedAt
        (q.move m.direction m.steps)).insideCount
    · rw [if_pos hin] at heq
      exact Or.inr ⟨q, hq, hmem, (Option.some_injective _ heq).symm, hin⟩
    · rw [if_neg hin] at heq
      exact absurd heq (Option.noConfusion)
  · rw [if_neg hmem] at heq
    exact Or.inl ((Option.some_injective _ heq) ▸ ⟨hq, hmem⟩)

/-- Witness for C3 (amended): in the two-piece counterexample puzzle, the
untouched piece is in the result because it was not part of the move. -/
theorem move_result_members_witness :
    ((⟨1, ⟨0, 0, 3, .Z⟩, 0⟩ : Piece) ∈
        (Puzzle.mk [⟨[⟨1, 1, 1⟩], []⟩, ⟨[⟨1, 1, 1⟩], []⟩]
            [⟨0, ⟨0, 0, 0, .Z⟩, 0⟩, ⟨1, ⟨0, 0, 3, .Z⟩, 0⟩]).pieces ∧
      (⟨1, ⟨0, 0, 3, .Z⟩, 0⟩ : Piece) ∉
        (Move.mk [⟨0, ⟨0, 0, 0, .Z⟩, 0⟩] .FORWARD 2).pieces) ∨
    (∃ q ∈ (Puzzle.mk [⟨[⟨1, 1, 1⟩], []⟩, ⟨[⟨1, 1, 1⟩], []⟩]
        [⟨0, ⟨0, 0, 0, .Z⟩, 0⟩, ⟨1, ⟨0, 0, 3, .Z⟩, 0⟩]).pieces,
      q ∈ (Move.mk [⟨0, ⟨0, 0, 0, .Z⟩, 0⟩] .FORWARD 2).pieces ∧
      (⟨1, ⟨0, 0, 3, .Z⟩, 0⟩ : Piece) = q.move .FORWARD 2 ∧
      0 < (((Puzzle.mk [⟨[⟨1, 1, 1⟩], []⟩, ⟨[⟨1, 1, 1⟩], []⟩]
          [⟨0, ⟨0, 0, 0, .Z⟩, 0⟩, ⟨1, ⟨0, 0, 3, .Z⟩, 0⟩]).shapeAt
            q.shape).alignedAt (q.move .FORWARD 2)).insideCount) :=
  move_result_members
    (Puzzle.mk [⟨[⟨1, 1, 1⟩], []⟩, ⟨[⟨1, 1, 1⟩], []⟩]
      [⟨0, ⟨0, 0, 0, .Z⟩, 0⟩, ⟨1, ⟨0, 0, 3, .Z⟩, 0⟩])
    (Move.mk [⟨0, ⟨0, 0, 0, .Z⟩, 0⟩] .FORWARD 2)
    ⟨1, ⟨0, 0, 3, .Z⟩, 0⟩ (by decide)

/-- C3 counterexample: in the two-piece puzzle below, `valid_moves` emits
the move `({piece 0}, FORWARD, 2)`.  Its step count exceeds 1, which the
generator only produces with `is_outside` set — yet the resulting state still
contains piece 0, merely translated (it collided, outside the frame, with
piece 1's out-of-frame voxel, so `is_outside` was set on a blocked step while
piece 0 still had voxels inside).  The two pieces' voxel sets are disjoint,
satisfying the claim's hypothesis. -/
theorem validMoves_outside_keeps_piece :
    (Move.mk [⟨0, ⟨0, 0, 0, .Z⟩, 0⟩] .FORWARD 2,
      PuzzleState.mk [⟨0, ⟨0, 0, 2, .Z⟩, 0⟩, ⟨1, ⟨0, 0, 3, .Z⟩, 0⟩]) ∈
      Puzzle.validMoves ⟨[⟨[⟨1, 1, 1⟩], []⟩, ⟨[⟨1, 1, 1⟩], []⟩],
        [⟨0, ⟨0, 0, 0, .Z⟩, 0⟩, ⟨1, ⟨0, 0, 3, .Z⟩, 0⟩]⟩ ∧
    ((2 : Int) ≠ 1 ∧
      (⟨0, ⟨0, 0, 2, .Z⟩, 0⟩ : Piece) =
        Piece.move ⟨0, ⟨0, 0, 0, .Z⟩, 0⟩ .FORWARD 2 ∧
      (⟨0, ⟨0, 0, 2, .Z⟩, 0⟩ : Piece) ∈
        (PuzzleState.mk [⟨0, ⟨0, 0, 2, .Z⟩, 0⟩, ⟨1, ⟨0, 0, 3, .Z⟩, 0⟩]).pieces) ∧
    ((Puzzle.voxelsOf ⟨[⟨[⟨1, 1, 1⟩], []⟩, ⟨[⟨1, 1, 1⟩], []⟩],
        [⟨0, ⟨0, 0, 0, .Z⟩, 0⟩, ⟨1, ⟨0, 0, 3, .Z⟩, 0⟩]⟩
        ⟨0, ⟨0, 0, 0, .Z⟩, 0⟩).all fun v =>
      decide (v ∉ Puzzle.voxelsOf ⟨[⟨[⟨1, 1, 1⟩], []⟩, ⟨[⟨1, 1, 1⟩], []⟩],
        [⟨0, ⟨0, 0, 0, .Z⟩, 0⟩, ⟨1, ⟨0, 0, 3, .Z⟩, 0⟩]⟩
        ⟨1, ⟨0, 0, 3, .Z⟩, 0⟩)) := by
  decide

/-! ### The solver: `solver.py` -/

/-- `d[k]` as an optional lookup, for Python dicts keyed by piece tuples. -/
def dictGet {α : Type} (d : List (List Piece × α)) (k : List Piece) : Option α :=
  match d.find? (fun pr => decide (pr.1 = k)) with
  | some pr => some pr.2
  | none => none

/-- `d[k] = v`: insert or overwrite. -/
def dictSet {α : Type} (d : List (List Piece × α)) (k : List Piece) (v : α) :
    List (List Piece × α) :=
  if d.any (fun pr => decide (pr.1 = k)) then
    d.map (fun pr => if pr.1 = k then (k, v) else pr)
  else d ++ [(k, v)]

/-- `del d[k]`. -/
def dictDel {α : Type} (d : List (List Piece × α)) (k : List Piece) :
    List (List Piece × α) :=
  d.filter (fun pr => !(decide (pr.1 = k)))

/-- `d.get(k, default)`. -/
def dictGetD {α : Type} (d : List (List Piece × α)) (k : List Piece) (v : α) : α :=
  match dictGet d k with
  | some x => x
  | none => v

/-- `sys.maxsize`. -/
def maxsize : Int := 9223372036854775807

/-- Models `heapq.heappop`: remove and return the smallest entry (leftmost
minimum by f-score, the first component).  On equal f-scores Python would
compare the move and pieces fields next, which can raise `TypeError`
(`None` against a `Move`); the open set never holds two entries at once in
the executions proved below, so no tie ever arises. -/
def popMin :
    List (Int × Option Move × List Piece) →
      Option ((Int × Option Move × List Piece) ×
        List (Int × Option Move × List Piece))
  | [] => none
  | e :: es =>
      match popMin es with
      | none => some (e, [])
      | some (m, rest) => if e.1 ≤ m.1 then some (e, es) else some (m, e :: rest)

/-- The `while current.pieces in came_from` loop of `reconstruct_path`: the
entries appended to `total_path` after the initial `(current, None)`
(fuel-bounded; each iteration of the proved runs consumes a distinct key). -/
def backWalk (cf : List (List Piece × (PuzzleState × Move))) :
    Nat → PuzzleState → List (PuzzleState × Option Move)
  | 0, _ => []
  | fuel + 1, cur =>
      match dictGet cf cur.pieces with
      | none => []
      | some (prev, mv) => (prev, some mv) :: backWalk cf fuel prev

/-- `reconstruct_path` from `solver.py`: start `total_path` at
`[(current, None)]`, append `(predecessor, move)` pairs while walking
`came_from`, then reverse. -/
def reconstructPath (cf : List (List Piece × (PuzzleState × Move)))
    (cur : PuzzleState) : List (PuzzleState × Option Move) :=
  ((cur, (none : Option Move)) :: backWalk cf (cf.length + 1) cur).reverse

/-- The mutable state of `disassemble`: `came_from`, `g_score`, `f_score`,
`states` and the `open_set` priority queue. -/
structure AState where
  cameFrom : List (List Piece × (PuzzleState × Move))
  gScore : List (List Piece × Int)
  fScore : List (List Piece × Int)
  states : List (List Piece × PuzzleState)
  openSet : List (Int × Option Move × List Piece)

/-- The `for move, neighbor in new_puzzle.valid_moves()` loop of
`disassemble`.  The source reads `g_score[current]` directly (always present
for a popped entry; the default 0 here is never used in the proved runs), and
its `if neighbor not in open_set` test compares a `PuzzleState` against
`(score, move, pieces)` triples, hence is always true and is modelled away. -/
def relaxNeighbors (newPz : Puzzle) (current : List Piece) (state : PuzzleState) :
    List (Move × PuzzleState) → AState → AState
  | [], st => st
  | (mv, neighbor) :: rest, st =>
      let tentative := dictGetD st.gScore current 0 + 1
      let st1 :=
        if tentative < dictGetD st.gScore neighbor.pieces maxsize then
          let score : Int := ((newPz.toState neighbor).score : Int)
          AState.mk
            (dictSet st.cameFrom neighbor.pieces (state, mv))
            (dictSet st.gScore neighbor.pieces tentative)
            (dictSet st.fScore neighbor.pieces (tentative + score))
            (dictSet st.states neighbor.pieces neighbor)
            (st.openSet ++ [(tentative + score, some mv, neighbor.pieces)])
        else st
      relaxNeighbors newPz current state rest st1

/-- The `while open_set` loop of `disassemble` (fuel-bounded).  `none` covers
the source's `return None` on exhaustion, a missing `states[current]` key
(a `KeyError` in Python, never reached below), and fuel running out. -/
def aStarLoop (pz : Puzzle) :
    Nat → AState → Option (List (PuzzleState × Option Move))
  | 0, _ => none
  | fuel + 1, st =>
      match popMin st.openSet with
      | none => none
      | some ((_, _, current), rest) =>
          match dictGet st.states current with
          | none => none
          | some state =>
              if current.length = 0 then
                some (reconstructPath st.cameFrom state)
              else
                let newPz := pz.toState state
                aStarLoop pz fuel
                  (relaxNeighbors newPz current state newPz.validMoves
                    ⟨st.cameFrom, st.gScore, st.fScore,
                     dictDel st.states current, rest⟩)

/-- Fuel for the A* loop; the proved runs stop after two iterations. -/
def aStarFuel : Nat := 1000

/-- `disassemble` from `solver.py`: A* over puzzle states from the current
state toward the empty state. -/
def disassemble (pz : Puzzle) : Option (List (PuzzleState × Option Move)) :=
  let start := pz.state
  aStarLoop pz aStarFuel
    ⟨[], [(start.pieces, 0)], [(start.pieces, (pz.score : Int))],
     [(start.pieces, start)], [((pz.score : Int), none, start.pieces)]⟩

/-! ### Claim C1: the shape of a returned disassembly

`reconstruct_path` appends `(predecessor, move)` pairs while walking back, so
after the final `reverse` each element carries the move LEAVING its state;
the `(…, None)` pair ends up at the END of the sequence, on the goal state,
not at the start. -/

theorem backWalk_all_some (cf : List (List Piece × (PuzzleState × Move))) :
    ∀ (fuel : Nat) (cur : PuzzleState),
      ∀ x ∈ backWalk cf fuel cur, x.2.isSome := by
  intro fuel
  induction fuel with
  | zero => intro cur x hx; simp [backWalk] at hx
  | succ fuel ih =>
    intro cur x hx
    unfold backWalk at hx
    match h : dictGet cf cur.pieces with
    | none => rw [h] at hx; simp at hx
    | some (prev, mv) =>
      rw [h] at hx
      rcases List.mem_cons.1 hx with h1 | h1
      · subst h1; rfl
      · exact ih prev x h1

/-- The link between consecutive path elements: the earlier element carries
the move that `came_from` records as producing the later element's state
from the earlier one. -/
def pathStep (cf : List (List Piece × (PuzzleState × Move)))
    (a b : PuzzleState × Option Move) : Prop :=
  ∃ mv, a.2 = some mv ∧ dictGet cf b.1.pieces = some (a.1, mv)

theorem chain_backWalk (cf : List (List Piece × (PuzzleState × Move))) :
    ∀ (fuel : Nat) (cur : PuzzleState) (mv0 : Option Move),
      List.Chain' (fun x y => pathStep cf y x)
        ((cur, mv0) :: backWalk cf fuel cur) := by
  intro fuel
  induction fuel with
  | zero => intro cur mv0; exact List.chain'_singleton _
  | succ fuel ih =>
    intro cur mv0
    unfold backWalk
    match h : dictGet cf cur.pieces with
    | none => exact List.chain'_singleton _
    | some (prev, mv) =>
      rw [List.chain'_cons]
      exact ⟨⟨mv, rfl, h⟩, ih prev (some mv)⟩

/-- C1 (amended): a reconstructed path is nonempty, ENDS with the pair
`(goal state, None)`, pairs every earlier element with `some` move, and links
consecutive elements through `came_from`: each element's move produces the
next element's state from its own state.  (The claim instead puts `None` on
the first element and pairs each state with the move that produced it; the
concrete `disassemble` run in the counterexample returns
`[(start, some move), (empty, None)]`.) -/
theorem reconstructPath_shape (cf : List (List Piece × (PuzzleState × Move)))
    (cur : PuzzleState) :
    reconstructPath cf cur ≠ [] ∧
    (reconstructPath cf cur).getLast? = some (cur, none) ∧
    (∀ x ∈ (reconstructPath cf cur).dropLast, x.2.isSome) ∧
    List.Chain' (pathStep cf) (reconstructPath cf cur) := by
  refine ⟨by simp [reconstructPath], ?_, ?_, ?_⟩
  · rw [reconstructPath, List.getLast?_reverse]
    rfl
  · intro x hx
    rw [reconstructPath, List.reverse_cons, List.dropLast_concat,
      List.mem_reverse] at hx
    exact backWalk_all_some cf _ _ x hx
  · rw [reconstructPath]
    exact List.chain'_reverse.2 (chain_backWalk cf _ cur none)

/-- Witness for C1 (amended) on a concrete `came_from` and goal state. -/
theorem reconstructPath_shape_witness :
    (reconstructPath
        [([], (PuzzleState.mk [⟨0, ⟨0, 0, 0, .Z⟩, 0⟩],
          Move.mk [⟨0, ⟨0, 0, 0, .Z⟩, 0⟩] .FORWARD 3))]
        (PuzzleState.mk [])).getLast? = some (PuzzleState.mk [], none) :=
  (reconstructPath_shape
    [([], (PuzzleState.mk [⟨0, ⟨0, 0, 0, .Z⟩, 0⟩],
      Move.mk [⟨0, ⟨0, 0, 0, .Z⟩, 0⟩] .FORWARD 3))]
    (PuzzleState.mk [])).2.1

/-- C1 counterexample: on the one-piece puzzle below, `disassemble` succeeds
and returns a sequence whose FIRST element pairs the fully-assembled start
state with the first move (not with `None`), and whose final element pairs
the empty state with `None` — the claimed placement of `None` on the first
element is wrong. -/
theorem disassemble_first_element_has_move :
    disassemble (Puzzle.mk [⟨[⟨1, 1, 1⟩], []⟩, ⟨[⟨1, 1, 1⟩], []⟩]
        [⟨0, ⟨0, 0, 0, .Z⟩, 0⟩]) =
      some [(PuzzleState.mk [⟨0, ⟨0, 0, 0, .Z⟩, 0⟩],
              some (Move.mk [⟨0, ⟨0, 0, 0, .Z⟩, 0⟩] .FORWARD 3)),
            (PuzzleState.mk [], none)] ∧
    some (Move.mk [⟨0, ⟨0, 0, 0, .Z⟩, 0⟩] .FORWARD 3) ≠ (none : Option Move) := by
  constructor
  · decide
  · decide

/-! ### Claim C10: state rendering and parsing round-trip

`PuzzleState.__str__` joins the piece renderings with spaces;
`PuzzleState.from_text` splits on whitespace and rebuilds each piece from
`part[0]` (place letter), `int(part[1]) − 1` (shape) and
`ord(part[2]) − 97` (orientation). -/

/-- `str(int)`, as a char list. -/
def intRepr (i : Int) : List Char :=
  if i < 0 then '-' :: Nat.toDigits 10 (-i).toNat else Nat.toDigits 10 i.toNat

/-- `chr(97 + orientation)` from `Piece.__str__` (total here via
`Char.ofNat`; Python `chr` only raises far outside the orientations used). -/
def orientChr (o : Int) : Char :=
  Char.ofNat (97 + o).toNat

/-- `str(axis)` as rendered inside `Position.__str__`. -/
def axisChars : Axis → List Char
  | .X => ['A', 'x', 'i', 's', '.', 'X']
  | .Y => ['A', 'x', 'i', 's', '.', 'Y']
  | .Z => ['A', 'x', 'i', 's', '.', 'Z']

/-- `Position.__str__` from `position.py`: `(x,y,z,axis)`. -/
def Position.pyChars (p : Position) : List Char :=
  ['('] ++ intRepr p.x ++ [','] ++ intRepr p.y ++ [','] ++ intRepr p.z ++
    [','] ++ axisChars p.axis ++ [')']

/-- `Piece.__str__` from `piece.py`: a piece at a named place renders as
`<letter><shape+1><orientation letter>` (the six `PLACES` values inlined, in
the source's A..F check order); a loose piece falls back to the position
tuple form. -/
def Piece.pyChars (pc : Piece) : List Char :=
  if pc.position = ⟨0, -1, 0, .Z⟩ then
    'A' :: (intRepr (pc.shape + 1) ++ [orientChr pc.orientation])
  else if pc.position = ⟨0, 0, -1, .X⟩ then
    'B' :: (intRepr (pc.shape + 1) ++ [orientChr pc.orientation])
  else if pc.position = ⟨-1, 0, 0, .Y⟩ then
    'C' :: (intRepr (pc.shape + 1) ++ [orientChr pc.orientation])
  else if pc.position = ⟨0, 0, 1, .X⟩ then
    'D' :: (intRepr (pc.shape + 1) ++ [orientChr pc.orientation])
  else if pc.position = ⟨1, 0, 0, .Y⟩ then
    'E' :: (intRepr (pc.shape + 1) ++ [orientChr pc.orientation])
  else if pc.position = ⟨0, 1, 0, .Z⟩ then
    'F' :: (intRepr (pc.shape + 1) ++ [orientChr pc.orientation])
  else
    pc.position.pyChars ++ intRepr (pc.shape + 1) ++ [orientChr pc.orientation]

/-- `" ".join(...)`. -/
def joinSpace : List (List Char) → List Char
  | [] => []
  | [w] => w
  | w :: ws => w ++ ' ' :: joinSpace ws

/-- `PuzzleState.__str__`. -/
def PuzzleState.pyChars (s : PuzzleState) : List Char :=
  joinSpace (s.pieces.map Piece.pyChars)

/-- Python `text.split()` with no separator: split on whitespace runs and
drop empty parts (accumulator-based). -/
def splitWsAux : List Char → List Char → List (List Char)
  | [], acc => if acc.isEmpty then [] else [acc.reverse]
  | c :: cs, acc =>
      if c.isWhitespace then
        if acc.isEmpty then splitWsAux cs []
        else acc.reverse :: splitWsAux cs []
      else splitWsAux cs (c :: acc)

def splitWs (l : List Char) : List (List Char) :=
  splitWsAux l []

/-- One token of `PuzzleState.from_text`: `none` models the Python
exceptions (short token, unknown place letter, non-digit shape char). -/
def parsePiece : List Char → Option Piece
  | c0 :: c1 :: c2 :: _ =>
      match PLACES.find? (fun pr => decide (pr.1 = c0)) with
      | none => none
      | some pr =>
          if c1.isDigit then
            some ⟨(c1.toNat : Int) - 48 - 1, pr.2, (c2.toNat : Int) - 97⟩
          else none
  | _ => none

/-- The token loop of `PuzzleState.from_text` (fails on the first bad
token, as the Python exceptions abort the whole call). -/
def parseAll : List (List Char) → Option (List Piece)
  | [] => some []
  | w :: ws =>
      match parsePiece w, parseAll ws with
      | some p, some ps => some (p :: ps)
      | _, _ => none

/-- `PuzzleState.from_text` from `puzzle.py`. -/
def PuzzleState.fromChars (text : List Char) : Option PuzzleState :=
  match parseAll (splitWs text) with
  | some pieces => some ⟨pieces⟩
  | none => none

theorem splitWsAux_no_ws :
    ∀ (w rest acc : List Char), (∀ c ∈ w, ¬ c.isWhitespace) →
      splitWsAux (w ++ rest) acc = splitWsAux rest (w.reverse ++ acc) := by
  intro w
  induction w with
  | nil => intro rest acc _; rfl
  | cons c w ih =>
    intro rest acc hw
    have hc : ¬ c.isWhitespace = true := hw c (List.mem_cons_self c w)
    have h1 : splitWsAux ((c :: w) ++ rest) acc = splitWsAux (w ++ rest) (c :: acc) := by
      show splitWsAux (c :: (w ++ rest)) acc = _
      conv_lhs => unfold splitWsAux
      rw [if_neg hc]
    rw [h1, ih rest (c :: acc) (fun d hd => hw d (List.mem_cons_of_mem c hd))]
    congr 1
    simp

theorem splitWs_joinSpace :
    ∀ words : List (List Char),
      (∀ w ∈ words, w ≠ [] ∧ ∀ c ∈ w, ¬ c.isWhitespace) →
      splitWs (joinSpace words) = words := by
  intro words
  induction words with
  | nil => intro _; rfl
  | cons w ws ih =>
    intro h
    obtain ⟨hw, hwc⟩ := h w (List.mem_cons_self w ws)
    cases ws with
    | nil =>
      show splitWsAux (joinSpace [w]) [] = [w]
      show splitWsAux w [] = [w]
      rw [show (w : List Char) = w ++ [] from (List.append_nil w).symm,
        splitWsAux_no_ws w [] [] hwc]
      unfold splitWsAux
      rw [List.append_nil, if_neg (by simpa using hw)]
      simp
    | cons w2 ws2 =>
      show splitWsAux (w ++ ' ' :: joinSpace (w2 :: ws2)) [] = w :: w2 :: ws2
      rw [splitWsAux_no_ws w (' ' :: joinSpace (w2 :: ws2)) [] hwc]
      unfold splitWsAux
      rw [if_pos (by decide), if_neg (by simpa using hw)]
      rw [List.append_nil, List.reverse_reverse]
      have := ih (fun v hv => h v (List.mem_cons_of_mem w hv))
      rw [show splitWsAux (joinSpace (w2 :: ws2)) [] =
        splitWs (joinSpace (w2 :: ws2)) from rfl, this]

theorem parsePiece_pyChars (pc : Piece)
    (hplace : ∃ pr ∈ PLACES, pc.position = pr.2)
    (hs0 : 0 ≤ pc.shape) (hs5 : pc.shape ≤ 5)
    (ho0 : 0 ≤ pc.orientation) (ho7 : pc.orientation ≤ 7) :
    parsePiece (Piece.pyChars pc) = some pc ∧
    Piece.pyChars pc ≠ [] ∧
    ∀ c ∈ Piece.pyChars pc, ¬ c.isWhitespace := by
  obtain ⟨sh, pos, o⟩ := pc
  obtain ⟨pr, hpr, hpos⟩ := hplace
  simp only at hpos hs0 hs5 ho0 ho7
  subst hpos
  fin_cases hpr <;> simp only [] <;>
    interval_cases sh <;> interval_cases o <;> decide

theorem parseAll_map_pyChars :
    ∀ pieces : List Piece,
      (∀ pc ∈ pieces, parsePiece (Piece.pyChars pc) = some pc) →
      parseAll (pieces.map Piece.pyChars) = some pieces := by
  intro pieces
  induction pieces with
  | nil => intro _; rfl
  | cons pc rest ih =>
    intro h
    show parseAll (Piece.pyChars pc :: rest.map Piece.pyChars) = _
    unfold parseAll
    rw [h pc (List.mem_cons_self pc rest),
      ih (fun q hq => h q (List.mem_cons_of_mem pc hq))]

/-- C10: for every state whose pieces all sit at one of the six named
`PLACES` positions with shape index in `0..5` and orientation in `0..7`,
parsing the rendered state text returns the original state. -/
theorem fromChars_pyChars_roundtrip (s : PuzzleState)
    (h : ∀ pc ∈ s.pieces,
      (∃ pr ∈ PLACES, pc.position = pr.2) ∧
      0 ≤ pc.shape ∧ pc.shape ≤ 5 ∧ 0 ≤ pc.orientation ∧ pc.orientation ≤ 7) :
    PuzzleState.fromChars s.pyChars = some s := by
  have hpc : ∀ pc ∈ s.pieces,
      parsePiece (Piece.pyChars pc) = some pc ∧
      Piece.pyChars pc ≠ [] ∧ ∀ c ∈ Piece.pyChars pc, ¬ c.isWhitespace := by
    intro pc hmem
    obtain ⟨hplace, hs0, hs5, ho0, ho7⟩ := h pc hmem
    exact parsePiece_pyChars pc hplace hs0 hs5 ho0 ho7
  have hsplit : splitWs (PuzzleState.pyChars s) = s.pieces.map Piece.pyChars := by
    refine splitWs_joinSpace _ ?_
    intro w hw
    obtain ⟨pc, hmem, rfl⟩ := List.mem_map.1 hw
    exact ⟨(hpc pc hmem).2.1, (hpc pc hmem).2.2⟩
  show PuzzleState.fromChars (joinSpace (s.pieces.map Piece.pyChars)) = some s
  unfold PuzzleState.fromChars
  rw [show joinSpace (s.pieces.map Piece.pyChars) = PuzzleState.pyChars s from rfl,
    hsplit, parseAll_map_pyChars s.pieces (fun pc hmem => (hpc pc hmem).1)]

/-- Witness for C10 at a concrete two-piece state (`A1a B3c`). -/
theorem fromChars_pyChars_roundtrip_witness :
    PuzzleState.fromChars
        (PuzzleState.pyChars ⟨[⟨0, ⟨0, -1, 0, .Z⟩, 0⟩, ⟨2, ⟨0, 0, -1, .X⟩, 2⟩]⟩) =
      some ⟨[⟨0, ⟨0, -1, 0, .Z⟩, 0⟩, ⟨2, ⟨0, 0, -1, .X⟩, 2⟩]⟩ :=
  fromChars_pyChars_roundtrip _ (by decide)

end Burr
